import Mathlib

set_option maxRecDepth 10000

/-!
Verification development for the MowBot job-coordination bot
(`src/telegram_bot.py`).  The Python source is shallowly embedded below:
SQLite rows of the `grounds_data` table become a `Job` structure, the
`grounds_data` table itself a `List Job`, the per-user
`context.user_data` dictionary a `Session` structure, and each handler's
store/session effect a pure Lean function carrying the handler's name.
Timestamps (`datetime.now().isoformat()` strings in the source) are
modelled as seconds-since-epoch naturals; the calendar date of a
timestamp is its day number.  The `photos` TEXT column is kept at string
level: the pipe-separated encoding, Python `str.strip`, `str.split("|")`
and the substring test `target_date in path` are all modelled on
character lists.
-/

namespace MowBot

/-! ### Python string primitives -/

/-- Python `str.strip()` on a character list: drop whitespace at both ends. -/
def pyStrip (cs : List Char) : List Char :=
  ((cs.dropWhile Char.isWhitespace).reverse.dropWhile Char.isWhitespace).reverse

/-- Python `s.split("|")`: split a character list at every pipe character.
`splitOnPipe []` is `[[]]`, matching Python's `"".split("|") == [""]`. -/
def splitOnPipe : List Char → List (List Char)
  | [] => [[]]
  | c :: rest =>
    if c = '|' then [] :: splitOnPipe rest
    else
      match splitOnPipe rest with
      | [] => [[c]]
      | h :: t => (c :: h) :: t

/-- Python `needle in hay` substring containment on character lists. -/
def hasSub : List Char → List Char → Bool
  | [], needle => needle.isEmpty
  | c :: t, needle => needle.isPrefixOf (c :: t) || hasSub t needle

/-! ### Photo ledger (`filter_photos_by_date`, `count_photos_for_date`,
`handle_photo`) -/

/-- The photo references stored in a job's `photos` column: the column is
stripped and split on `"|"`; an empty/blank column holds no references
(source lines 193-196). -/
def photo_refs (photos_str : String) : List (List Char) :=
  if (pyStrip photos_str.toList).isEmpty then []
  else splitOnPipe (pyStrip photos_str.toList)

/-- `filter_photos_by_date` (source lines 191-204): keep the paths whose
text contains `target_date` as a substring (Python `target_date in path`). -/
def filter_photos_by_date (photos_str target_date : String) : List String :=
  ((photo_refs photos_str).filter (fun p => hasSub p target_date.toList)).map
    (fun cs => String.mk cs)

/-- `count_photos_for_date` (source lines 207-209). -/
def count_photos_for_date (photos_str target_date : String) : Nat :=
  (filter_photos_by_date photos_str target_date).length

inductive UploadResult
  | ok
  | quotaExceeded
deriving DecidableEq

/-- `new_photos` of `handle_photo` (source line 340):
`current.strip() + "|" + photo_path if current and current.strip() else
photo_path`. -/
def appended_photos (photos_str photo_path : String) : String :=
  if (pyStrip photos_str.toList).isEmpty then photo_path
  else String.mk (pyStrip photos_str.toList) ++ "|" ++ photo_path

/-- The database effect of `handle_photo` (source lines 336-351): append the
new path to the stored pipe-separated string, count the photos of `today`
in the appended string, and persist only when that count does not exceed
25; on rejection the stored column is left as it was. -/
def handle_photo_db (photos_str today photo_path : String) :
    UploadResult × String :=
  if 25 < count_photos_for_date (appended_photos photos_str photo_path) today
  then (.quotaExceeded, photos_str)
  else (.ok, appended_photos photos_str photo_path)

/-! ### Jobs and the `grounds_data` store -/

inductive JobStatus
  | pending
  | in_progress
  | completed
deriving DecidableEq

/-- One row of `grounds_data` (the columns the verified handlers touch). -/
structure Job where
  id : Nat
  site_name : String
  status : JobStatus
  assigned_to : Option Int
  start_time : Option Nat
  finish_time : Option Nat
  photos : String
  notes : Option String
  scheduled_date : Option String
deriving DecidableEq

/-- The spec's per-job invariant: a Pending job has both timestamps absent,
an InProgress job has only `start_time` set, a Completed job has both set
with `finish_time >= start_time`. -/
def job_inv (j : Job) : Bool :=
  match j.status, j.start_time, j.finish_time with
  | .pending, none, none => true
  | .in_progress, some _, none => true
  | .completed, some s, some f => decide (s ≤ f)
  | _, _, _ => false

inductive StartResult
  | notFound
  | alreadyInProgress
  | started
deriving DecidableEq

/-- `UPDATE grounds_data SET status = 'in_progress', start_time = ? WHERE
id = ?` (source line 556). -/
def start_update (now job_id : Nat) (store : List Job) : List Job :=
  store.map fun k =>
    if k.id == job_id then { k with status := .in_progress, start_time := some now }
    else k

/-- `emp_start_job` (source lines 544-562): look the job up; reject only
when its status is already `in_progress`; otherwise set it to
`in_progress` with `start_time = now`.  There is no check for
`completed`. -/
def emp_start_job (now : Nat) (store : List Job) (job_id : Nat) :
    StartResult × List Job :=
  match store.find? (fun j => j.id == job_id) with
  | none => (.notFound, store)
  | some j =>
    if j.status = .in_progress then (.alreadyInProgress, store)
    else (.started, start_update now job_id store)

inductive FinishResult
  | notFound
  | alreadyCompleted
  | notStarted
  | finished
deriving DecidableEq

/-- `UPDATE grounds_data SET status = 'completed', finish_time = ? WHERE
id = ?` (source line 579). -/
def finish_update (now job_id : Nat) (store : List Job) : List Job :=
  store.map fun k =>
    if k.id == job_id then { k with status := .completed, finish_time := some now }
    else k

/-- `emp_finish_job` (source lines 564-585): reject a completed job, then
reject any job that is not `in_progress`; otherwise complete it with
`finish_time = now`. -/
def emp_finish_job (now : Nat) (store : List Job) (job_id : Nat) :
    FinishResult × List Job :=
  match store.find? (fun j => j.id == job_id) with
  | none => (.notFound, store)
  | some j =>
    if j.status = .completed then (.alreadyCompleted, store)
    else if j.status ≠ .in_progress then (.notStarted, store)
    else (.finished, finish_update now job_id store)

/-- The `WHERE` clause of `reset_jobs_daily` (source lines 399-407). -/
def is_stale (today : String) (j : Job) : Prop :=
  (j.status = .completed ∨ j.status = .in_progress) ∧
    (j.scheduled_date = none ∨ j.scheduled_date = some today)

instance (today : String) (j : Job) : Decidable (is_stale today j) := by
  unfold is_stale; infer_instance

/-- The `SET` clause of `reset_jobs_daily`, applied to one matching row. -/
def reset_step (today : String) (j : Job) : Job :=
  if is_stale today j then
    { j with status := .pending, assigned_to := none,
             start_time := none, finish_time := none }
  else j

/-- `reset_jobs_daily` (source lines 394-414): one SQL `UPDATE` over the
whole table. -/
def reset_jobs_daily (today : String) (store : List Job) : List Job :=
  store.map (reset_step today)

/-- The `UPDATE grounds_data SET assigned_to = ? WHERE id = ?` of
`assign_jobs_to_employee` (source line 874). -/
def assign_update (employee_id : Int) (job_id : Nat) (store : List Job) :
    List Job :=
  store.map fun k =>
    if k.id == job_id then { k with assigned_to := some employee_id } else k

/-- `assign_jobs_to_employee` (source lines 866-883): with an empty
selection the handler returns before touching the store; otherwise it runs
one `UPDATE` per selected id. -/
def assign_jobs_to_employee (employee_id : Int) (selected : List Nat)
    (store : List Job) : List Job :=
  if selected = [] then store
  else selected.foldl (fun st job_id => assign_update employee_id job_id st) store

/-! ### Per-user session state (`context.user_data`) -/

/-- The named fields of the per-user `context.user_data` dictionary that
the verified handlers use.  An absent dictionary key is `none` (or `false`
/ the empty set for keys read with a default). -/
structure Session where
  selected_jobs : Finset Nat
  current_page : Nat
  awaiting_photo_for : Option Nat
  awaiting_note_for : Option Nat
  bulk_upload_mode : Bool
  return_to_job_menu : Bool
deriving DecidableEq

/-- Session effect of `emp_upload_photo` (source lines 587-614): reject
when today's photo count is already 25 or more, otherwise set the
awaiting-photo flag and bulk-upload mode.  The awaiting-note flag is not
touched. -/
def emp_upload_photo (photos_str today : String) (job_id : Nat)
    (s : Session) : Session :=
  if 25 ≤ count_photos_for_date photos_str today then s
  else { s with awaiting_photo_for := some job_id,
                bulk_upload_mode := true,
                return_to_job_menu := true }

/-- Session effect of `director_edit_note` (source lines 834-849): when the
job exists, set the awaiting-note flag.  The awaiting-photo flag is not
touched. -/
def director_edit_note (store : List Job) (job_id : Nat) (s : Session) :
    Session :=
  match store.find? (fun j => j.id == job_id) with
  | none => s
  | some _ => { s with awaiting_note_for := some job_id }

/-- Session effect of `emp_employee_dashboard` (source lines 461-463):
delete the awaiting-photo flag. -/
def emp_employee_dashboard (s : Session) : Session :=
  { s with awaiting_photo_for := none }

/-- Session effect of `finish_photo_upload` (source lines 616-621): pop the
awaiting-photo flag and bulk-upload mode. -/
def finish_photo_upload (s : Session) : Session :=
  { s with awaiting_photo_for := none, bulk_upload_mode := false }

/-- `handle_toggle_job` (source lines 377-392): flip membership of the job
id in the selection set. -/
def handle_toggle_job (job_id : Nat) (s : Session) : Session :=
  { s with selected_jobs :=
      if job_id ∈ s.selected_jobs then s.selected_jobs.erase job_id
      else insert job_id s.selected_jobs }

/-- The `page_<n>` branch of `callback_handler` (source lines 1430-1434):
store the new page number; nothing else in the session changes. -/
def handle_page_nav (page : Nat) (s : Session) : Session :=
  { s with current_page := page }

/-! ### Pagination (`build_director_assign_jobs_page`) -/

def jobs_per_page : Nat := 10

/-- The rows of `SELECT ... WHERE assigned_to IS NULL ORDER BY id LIMIT 10
OFFSET (page-1)*10` (source lines 256-268), over the ordered unassigned
list. -/
def assign_jobs_page (page : Nat) (unassigned : List Job) : List Job :=
  (unassigned.drop ((page - 1) * jobs_per_page)).take jobs_per_page

/-- The `Next` button condition of `build_director_assign_jobs_page`
(source line 292): the current page is full. -/
def page_has_next (page : Nat) (unassigned : List Job) : Bool :=
  (assign_jobs_page page unassigned).length == jobs_per_page

/-- The concatenation of consecutive pages `1, ..., k`. -/
def pages_concat (k : Nat) (unassigned : List Job) : List Job :=
  (List.range k).flatMap fun i => assign_jobs_page (i + 1) unassigned

/-! ### Effective photo date (`view_job_photos_grid`, `director_send_job`,
`view_job_photos`) -/

def seconds_per_day : Nat := 86400

/-- `datetime.date()` of a timestamp: its day number. -/
def date_of (t : Nat) : Nat := t / seconds_per_day

/-- The `photo_date` computation shared by `view_job_photos_grid` (source
lines 1107-1116), `director_send_job` (lines 686-695) and
`view_job_photos` (lines 923-932): the calendar date of `finish_time` when
set, otherwise today.  (In the source a `finish_time` that fails to parse
also falls back to today; `finish_time` is only ever written as
`datetime.now().isoformat()`, which always parses, and parsed timestamps
are what this embedding stores.) -/
def photo_date_for (finish_time : Option Nat) (today : Nat) : Nat :=
  match finish_time with
  | some t => date_of t
  | none => today

/-! ### Concrete sample data (used by counterexamples and witnesses) -/

/-- The storage naming convention of `handle_photo` (source line 315):
`f"job_{job_id}_{today}_{photo_file.file_id}.jpg"` under `photos/`. -/
def mk_photo_ref (job date suffix : String) : String :=
  "photos/job_" ++ job ++ "_" ++ date ++ "_" ++ suffix ++ ".jpg"

def sampleCompletedJob : Job :=
  { id := 1, site_name := "Magpie cottage", status := .completed,
    assigned_to := some 7, start_time := some 10, finish_time := some 20,
    photos := "", notes := none, scheduled_date := none }

def samplePendingJob : Job :=
  { id := 1, site_name := "Wessex water", status := .pending,
    assigned_to := some 7, start_time := none, finish_time := none,
    photos := "", notes := none, scheduled_date := none }

def sampleInProgressJob : Job :=
  { id := 1, site_name := "Trinity lodge", status := .in_progress,
    assigned_to := some 7, start_time := some 10, finish_time := none,
    photos := "", notes := none, scheduled_date := none }

def sampleOtherJob : Job :=
  { id := 2, site_name := "BioTechne", status := .pending,
    assigned_to := none, start_time := none, finish_time := none,
    photos := "", notes := none, scheduled_date := none }

/-- A fresh session: every `context.user_data` key absent. -/
def emptySession : Session :=
  { selected_jobs := ∅, current_page := 1, awaiting_photo_for := none,
    awaiting_note_for := none, bulk_upload_mode := false,
    return_to_job_menu := false }

/-- A stored `photos` column holding twenty-five references dated
2025-01-01. -/
def twentyFivePhotos : String :=
  "a_2025-01-01|b_2025-01-01|c_2025-01-01|d_2025-01-01|e_2025-01-01|f_2025-01-01|g_2025-01-01|h_2025-01-01|i_2025-01-01|j_2025-01-01|k_2025-01-01|l_2025-01-01|m_2025-01-01|n_2025-01-01|o_2025-01-01|p_2025-01-01|q_2025-01-01|r_2025-01-01|s_2025-01-01|t_2025-01-01|u_2025-01-01|v_2025-01-01|w_2025-01-01|x_2025-01-01|y_2025-01-01"

/-! ### Helper lemmas on the string model -/

theorem splitOnPipe_ne_nil : ∀ cs : List Char, splitOnPipe cs ≠ []
  | [] => by simp [splitOnPipe]
  | c :: rest => by
    unfold splitOnPipe
    by_cases h : c = '|'
    · simp [h]
    · simp only [h, if_false]
      cases hs : splitOnPipe rest <;> simp

theorem splitOnPipe_cons (c : Char) (rest : List Char) :
    splitOnPipe (c :: rest) =
      if c = '|' then [] :: splitOnPipe rest
      else
        match splitOnPipe rest with
        | [] => [[c]]
        | h :: t => (c :: h) :: t := rfl

theorem splitOnPipe_append : ∀ a b : List Char,
    splitOnPipe (a ++ '|' :: b) = splitOnPipe a ++ splitOnPipe b
  | [], b => by simp [splitOnPipe]
  | c :: a, b => by
    by_cases h : c = '|'
    · subst h
      show splitOnPipe ('|' :: (a ++ '|' :: b)) = splitOnPipe ('|' :: a) ++ _
      rw [splitOnPipe_cons, splitOnPipe_cons]
      simp [splitOnPipe_append a b]
    · show splitOnPipe (c :: (a ++ '|' :: b)) = splitOnPipe (c :: a) ++ _
      rw [splitOnPipe_cons, splitOnPipe_cons]
      simp only [h, if_false]
      rw [splitOnPipe_append a b]
      cases hs : splitOnPipe a with
      | nil => exact absurd hs (splitOnPipe_ne_nil a)
      | cons x t => simp

theorem splitOnPipe_of_not_mem : ∀ cs : List Char, '|' ∉ cs → splitOnPipe cs = [cs]
  | [], _ => rfl
  | c :: rest, h => by
    have hc : ¬c = '|' := fun e => h (e ▸ List.mem_cons_self c rest)
    have hr := splitOnPipe_of_not_mem rest fun hm => h (List.mem_cons_of_mem c hm)
    unfold splitOnPipe
    simp [hc, hr]

theorem dropWhile_eq_self_of_pyStrip {x : List Char} (h : pyStrip x = x) :
    x.dropWhile Char.isWhitespace = x := by
  have hsub := List.dropWhile_sublist (l := x) Char.isWhitespace
  refine hsub.eq_of_length (Nat.le_antisymm hsub.length_le ?_)
  have h1 : (pyStrip x).length ≤ (x.dropWhile Char.isWhitespace).length := by
    unfold pyStrip
    calc ((((x.dropWhile Char.isWhitespace).reverse.dropWhile
            Char.isWhitespace)).reverse).length
        = ((x.dropWhile Char.isWhitespace).reverse.dropWhile
            Char.isWhitespace).length := by simp
      _ ≤ (x.dropWhile Char.isWhitespace).reverse.length :=
          (List.dropWhile_sublist _).length_le
      _ = (x.dropWhile Char.isWhitespace).length := by simp
  rwa [h] at h1

theorem dropWhile_reverse_eq_self_of_pyStrip {x : List Char} (h : pyStrip x = x) :
    x.reverse.dropWhile Char.isWhitespace = x.reverse := by
  have hA := dropWhile_eq_self_of_pyStrip h
  unfold pyStrip at h
  rw [hA] at h
  have h2 := congrArg List.reverse h
  simpa using h2

theorem dropWhile_append_of_ne_nil {p : Char → Bool} {a : List Char}
    (h : a.dropWhile p = a) (hne : a ≠ []) (b : List Char) :
    (a ++ b).dropWhile p = a ++ b := by
  cases a with
  | nil => exact absurd rfl hne
  | cons c t =>
    have hc : ¬p c = true := by
      intro hpc
      rw [List.dropWhile_cons, if_pos hpc] at h
      have hlen := congrArg List.length h
      have hle := (List.dropWhile_sublist (l := t) p).length_le
      simp at hlen
      omega
    rw [List.cons_append, List.dropWhile_cons, if_neg hc]

theorem pyStrip_append_pipe {a p : List Char} (ha : pyStrip a = a) (hane : a ≠ [])
    (hp : pyStrip p = p) (hpne : p ≠ []) :
    pyStrip (a ++ '|' :: p) = a ++ '|' :: p := by
  unfold pyStrip
  rw [dropWhile_append_of_ne_nil (dropWhile_eq_self_of_pyStrip ha) hane]
  have hrev : (a ++ '|' :: p).reverse = p.reverse ++ '|' :: a.reverse := by
    simp
  rw [hrev]
  rw [dropWhile_append_of_ne_nil (dropWhile_reverse_eq_self_of_pyStrip hp)
    (by simpa using hpne)]
  rw [← hrev, List.reverse_reverse]

/-! ### Helper lemmas on the store model -/

theorem find?_update (job_id : Nat) (f : Job → Job) (hf : ∀ k, (f k).id = k.id) :
    ∀ (store : List Job) (j : Job),
      store.find? (fun k => k.id == job_id) = some j →
      (store.map fun k => if k.id == job_id then f k else k).find?
          (fun k => k.id == job_id) = some (f j)
  | [], j, h => by simp [List.find?] at h
  | c :: t, j, h => by
    by_cases hc : (c.id == job_id) = true
    · rw [@List.find?_cons_of_pos _ (fun k => k.id == job_id) c t hc] at h
      injection h with h
      subst h
      simp only [List.map_cons, if_pos hc]
      exact @List.find?_cons_of_pos _ (fun k => k.id == job_id) (f c) _
        (by show ((f c).id == job_id) = true; rw [hf]; exact hc)
    · rw [@List.find?_cons_of_neg _ (fun k => k.id == job_id) c t hc] at h
      simp only [List.map_cons, if_neg hc]
      rw [@List.find?_cons_of_neg _ (fun k => k.id == job_id) c _ hc]
      exact find?_update job_id f hf t j h

theorem mem_update_of_id_ne {job_id : Nat} {f : Job → Job} {store : List Job}
    {k : Job} (hk : k ∈ store) (h : (k.id == job_id) = false) :
    k ∈ store.map fun j => if j.id == job_id then f j else j := by
  have hm := List.mem_map_of_mem (fun j => if j.id == job_id then f j else j) hk
  simpa [h] using hm

theorem pages_concat_covers : ∀ (k : Nat) (l : List Job),
    l.length ≤ k * jobs_per_page → pages_concat k l = l
  | 0, l, h => by
    have hl : l = [] := List.eq_nil_of_length_eq_zero (by omega)
    subst hl
    rfl
  | k + 1, l, h => by
    have hstep : ∀ i : Nat,
        assign_jobs_page (i + 1 + 1) l =
          assign_jobs_page (i + 1) (l.drop jobs_per_page) := by
      intro i
      unfold assign_jobs_page
      rw [List.drop_drop]
      congr 2
      simp [jobs_per_page]
      ring
    have hlen : (l.drop jobs_per_page).length ≤ k * jobs_per_page := by
      rw [List.length_drop]
      have : (k + 1) * jobs_per_page = k * jobs_per_page + jobs_per_page := by ring
      omega
    have IH := pages_concat_covers k (l.drop jobs_per_page) hlen
    unfold pages_concat at IH ⊢
    rw [List.range_succ_eq_map, List.flatMap_cons, List.flatMap_map]
    have hfun : (fun a => assign_jobs_page (Nat.succ a + 1) l) =
        fun a => assign_jobs_page (a + 1) (l.drop jobs_per_page) := by
      funext a
      exact hstep a
    rw [hfun, IH]
    unfold assign_jobs_page
    simp

theorem assign_fold_length (employee_id : Int) :
    ∀ (selected : List Nat) (store : List Job),
      (selected.foldl (fun st jid => assign_update employee_id jid st)
          store).length = store.length
  | [], _ => rfl
  | jid :: rest, store => by
    simp only [List.foldl_cons]
    rw [assign_fold_length employee_id rest]
    simp [assign_update]

theorem assign_fold_getElem (employee_id : Int) :
    ∀ (selected : List Nat) (store : List Job) (i : Nat) (h : i < store.length)
      (h2 : i < (selected.foldl (fun st jid => assign_update employee_id jid st)
          store).length),
      (selected.foldl (fun st jid => assign_update employee_id jid st)
          store)[i] =
        if store[i].id ∈ selected
        then { store[i] with assigned_to := some employee_id }
        else store[i]
  | [], store, i, h, h2 => by simp
  | jid :: rest, store, i, h, h2 => by
    simp only [List.foldl_cons] at h2 ⊢
    have hlen : i < (assign_update employee_id jid store).length := by
      simpa [assign_update] using h
    have IH := assign_fold_getElem employee_id rest
      (assign_update employee_id jid store) i hlen h2
    have hget : (assign_update employee_id jid store)[i] =
        if (store[i].id == jid) = true
        then { store[i] with assigned_to := some employee_id }
        else store[i] := by
      simp only [assign_update, List.getElem_map]
    by_cases hj : store[i].id = jid
    · have hgetp : (assign_update employee_id jid store)[i] =
          { store[i] with assigned_to := some employee_id } := by
        rw [hget, if_pos (by simpa using hj)]
      rw [hgetp] at IH
      rw [IH]
      by_cases hr : store[i].id ∈ rest
      · rw [if_pos
          (show ({ store[i] with assigned_to := some employee_id } : Job).id ∈
            rest from hr)]
        rw [if_pos (List.mem_cons_of_mem jid hr)]
      · rw [if_neg
          (show ¬({ store[i] with assigned_to := some employee_id } : Job).id ∈
            rest from hr)]
        rw [if_pos (show store[i].id ∈ jid :: rest by
          rw [hj]; exact List.mem_cons_self jid rest)]
    · have hgetn : (assign_update employee_id jid store)[i] = store[i] := by
        rw [hget, if_neg (by simpa using hj)]
      rw [hgetn] at IH
      rw [IH]
      by_cases hr : store[i].id ∈ rest
      · rw [if_pos hr, if_pos (List.mem_cons_of_mem jid hr)]
      · rw [if_neg hr, if_neg (show ¬store[i].id ∈ jid :: rest by
          intro hmem
          rcases List.mem_cons.mp hmem with h1 | h2
          · exact hj h1
          · exact hr h2)]

theorem photo_refs_of_ne_nil {s : String} (h : pyStrip s.toList ≠ []) :
    photo_refs s = splitOnPipe (pyStrip s.toList) := by
  unfold photo_refs
  rw [if_neg (by simpa [List.isEmpty_iff] using h)]

theorem count_photos_eq (s d : String) (h : pyStrip s.toList ≠ []) :
    count_photos_for_date s d =
      ((splitOnPipe (pyStrip s.toList)).filter
        (fun q => hasSub q d.toList)).length := by
  unfold count_photos_for_date filter_photos_by_date
  rw [photo_refs_of_ne_nil h, List.length_map]

/-! ### Claims -/

/-- C8: toggling the same job id twice in `handle_toggle_job` returns the
selection set — and the whole session — to its original state; toggling is
a self-inverse flip of membership. -/
theorem c8_toggle_involutive (job_id : Nat) (s : Session) :
    handle_toggle_job job_id (handle_toggle_job job_id s) = s := by
  obtain ⟨sel, cp, ap, an, bm, rm⟩ := s
  by_cases h : job_id ∈ sel
  · simp [handle_toggle_job, h, Finset.not_mem_erase, Finset.insert_erase]
  · simp [handle_toggle_job, h, Finset.mem_insert_self, Finset.erase_insert]

/-- C9: the effective photo date used when viewing a job's photos is the
calendar date of `finish_time` whenever it is set and the current date
otherwise; for a completed job the result does not depend on the day of
viewing. -/
theorem c9_effective_photo_date (j : Job) (today t : Nat) :
    (j.finish_time = some t → photo_date_for j.finish_time today = date_of t) ∧
    (j.finish_time = none → photo_date_for j.finish_time today = today) ∧
    (j.finish_time.isSome = true →
      ∀ today2 : Nat,
        photo_date_for j.finish_time today = photo_date_for j.finish_time today2) := by
  refine ⟨fun h => by rw [h]; rfl, fun h => by rw [h]; rfl, fun h today2 => ?_⟩
  cases hf : j.finish_time with
  | none => rw [hf] at h; simp at h
  | some u => rfl

/-- C9 witness: for the sample completed job (finish time 20) the effective
date is `date_of 20` whatever the current date is. -/
theorem c9_effective_photo_date_witness :
    photo_date_for sampleCompletedJob.finish_time 99999 = date_of 20 :=
  (c9_effective_photo_date sampleCompletedJob 99999 20).1 (by decide)

/-- C3 counterexample: entering bulk-photo-upload mode for job 1 and then
entering note-input mode for job 2 leaves BOTH awaiting-input flags set,
so entering a new awaiting-input mode does not clear the previously active
flag of the other kind, and more than one flag can be active at a time. -/
theorem c3_counterexample :
    (director_edit_note [sampleOtherJob] 2
        (emp_upload_photo "" "2025-01-01" 1 emptySession)).awaiting_photo_for
      = some 1 ∧
    (director_edit_note [sampleOtherJob] 2
        (emp_upload_photo "" "2025-01-01" 1 emptySession)).awaiting_note_for
      = some 2 := by
  decide

/-- C3 amended: entering note-input mode leaves the awaiting-photo flag
untouched and entering photo-upload mode leaves the awaiting-note flag
untouched (so the two awaiting-input flags can be active simultaneously);
the awaiting-photo flag is cleared only by returning to the employee
dashboard or by finishing the upload. -/
theorem c3_awaiting_flags (store : List Job) (photos today : String)
    (job_id : Nat) (s : Session) :
    (director_edit_note store job_id s).awaiting_photo_for =
      s.awaiting_photo_for ∧
    (emp_upload_photo photos today job_id s).awaiting_note_for =
      s.awaiting_note_for ∧
    (emp_employee_dashboard s).awaiting_photo_for = none ∧
    (finish_photo_upload s).awaiting_photo_for = none := by
  refine ⟨?_, ?_, rfl, rfl⟩
  · unfold director_edit_note
    cases store.find? (fun j => j.id == job_id) <;> rfl
  · unfold emp_upload_photo
    by_cases h : 25 ≤ count_photos_for_date photos today
    · rw [if_pos h]
    · rw [if_neg h]

/-- C5 counterexample: `filter_photos_by_date` matches by substring
containment, not by the embedded date field.  A reference whose embedded
date field is 2025-01-02 but whose suffix happens to contain 2025-01-01 is
returned when filtering for 2025-01-01, although its embedded date differs
from the requested date. -/
theorem c5_counterexample :
    filter_photos_by_date
        (mk_photo_ref "1" "2025-01-02" "2025-01-01abc") "2025-01-01"
      = [mk_photo_ref "1" "2025-01-02" "2025-01-01abc"] ∧
    ("2025-01-02" : String) ≠ "2025-01-01" := by
  decide

/-- C5 amended: `filter_photos_by_date` returns exactly the subsequence of
the job's photo references that contain the date as a substring of the
whole reference (order preserved, empty exactly when no reference contains
the date).  References whose embedded date equals the target are always
kept, but a reference of a different date can also be kept when the target
appears elsewhere in its text. -/
theorem c5_filter_by_substring (photos_str D : String) :
    ((filter_photos_by_date photos_str D).map String.toList).Sublist
      (photo_refs photos_str) ∧
    (∀ p : List Char,
      String.mk p ∈ filter_photos_by_date photos_str D ↔
        p ∈ photo_refs photos_str ∧ hasSub p D.toList = true) ∧
    (filter_photos_by_date photos_str D = [] ↔
      ∀ p ∈ photo_refs photos_str, hasSub p D.toList = false) := by
  refine ⟨?_, ?_, ?_⟩
  · unfold filter_photos_by_date
    rw [List.map_map]
    have hid : (String.toList ∘ fun cs => String.mk cs) = id := rfl
    rw [hid, List.map_id]
    exact List.filter_sublist _
  · intro p
    unfold filter_photos_by_date
    constructor
    · intro hp
      rcases List.mem_map.mp hp with ⟨q, hq, hqe⟩
      have hqp : q = p := by
        have hdata := congrArg String.data hqe
        simpa using hdata
      subst hqp
      exact List.mem_filter.mp hq
    · intro hp
      exact List.mem_map_of_mem _ (List.mem_filter.mpr hp)
  · unfold filter_photos_by_date
    rw [List.map_eq_nil_iff, List.filter_eq_nil_iff]
    constructor
    · intro h p hp
      have := h p hp
      simpa using this
    · intro h p hp
      intro habs
      rw [h p hp] at habs
      exact Bool.false_ne_true habs

/-- C1 counterexample: starting a Completed job is NOT rejected with an
already-completed error.  `emp_start_job` has no completed-status check:
the call reports success and rewrites the job to InProgress with
`start_time = now`, leaving `finish_time` behind, so the claim's
"rejected with AlreadyCompleted ... leaving the job unchanged" is false. -/
theorem c1_counterexample :
    (emp_start_job 30 [sampleCompletedJob] 1).1 = .started ∧
    (emp_start_job 30 [sampleCompletedJob] 1).2 =
      [{ sampleCompletedJob with status := .in_progress,
                                 start_time := some 30 }] := by
  decide

/-- C1 amended: `emp_start_job` rejects with AlreadyInProgress exactly when
the job's status is already InProgress (store unchanged); for ANY other
status — Pending as claimed, but also Completed — it reports success and
sets the job to InProgress with `start_time = now`, leaving every other
field (in particular `finish_time`) unchanged; jobs with other ids are
untouched. -/
theorem c1_start_transition (now job_id : Nat) (store : List Job) (j : Job)
    (hfind : store.find? (fun k => k.id == job_id) = some j) :
    (j.status = .in_progress →
      emp_start_job now store job_id = (.alreadyInProgress, store)) ∧
    (j.status ≠ .in_progress →
      (emp_start_job now store job_id).1 = .started ∧
      (emp_start_job now store job_id).2.find? (fun k => k.id == job_id) =
        some { j with status := .in_progress, start_time := some now } ∧
      ∀ k ∈ store, (k.id == job_id) = false →
        k ∈ (emp_start_job now store job_id).2) := by
  have he : emp_start_job now store job_id =
      if j.status = .in_progress then (.alreadyInProgress, store)
      else (.started, start_update now job_id store) := by
    unfold emp_start_job
    rw [hfind]
  constructor
  · intro hs
    rw [he, if_pos hs]
  · intro hs
    rw [he, if_neg hs]
    refine ⟨rfl, ?_, ?_⟩
    · exact find?_update job_id
        (fun k => { k with status := .in_progress, start_time := some now })
        (fun k => rfl) store j hfind
    · intro k hk hkid
      exact mem_update_of_id_ne hk hkid

/-- C1 witness: starting the sample Pending job succeeds and records
`start_time = 7`. -/
theorem c1_start_transition_witness :
    (emp_start_job 7 [samplePendingJob] 1).1 = .started ∧
    (emp_start_job 7 [samplePendingJob] 1).2.find? (fun k => k.id == 1) =
      some { samplePendingJob with status := .in_progress,
                                   start_time := some 7 } := by
  have h := c1_start_transition 7 1 [samplePendingJob] samplePendingJob
    (by decide)
  have h2 := h.2 (by decide)
  exact ⟨h2.1, h2.2.1⟩

/-- C2 counterexample: the sample Completed job satisfies the invariant,
but after `emp_start_job` the store no longer does — the job becomes
InProgress while `finish_time` is still set. -/
theorem c2_counterexample :
    job_inv sampleCompletedJob = true ∧
    (emp_start_job 30 [sampleCompletedJob] 1).2.all job_inv = false := by
  decide

/-- C2 amended: `emp_finish_job` (under a clock not earlier than the stored
start time) and `reset_jobs_daily` preserve the per-job invariant, and
`emp_start_job` preserves it provided the targeted job is not Completed;
starting a Completed job violates it (see the counterexample). -/
theorem c2_invariant_preservation :
    (∀ (now job_id : Nat) (store : List Job),
      (∀ j ∈ store, job_inv j = true) →
      (∀ j ∈ store, j.id = job_id → j.status ≠ .completed) →
      ∀ j ∈ (emp_start_job now store job_id).2, job_inv j = true) ∧
    (∀ (now job_id : Nat) (store : List Job),
      (store.map Job.id).Nodup →
      (∀ j ∈ store, job_inv j = true) →
      (∀ j ∈ store, j.id = job_id →
        j.start_time.all (fun s => decide (s ≤ now)) = true) →
      ∀ j ∈ (emp_finish_job now store job_id).2, job_inv j = true) ∧
    (∀ (today : String) (store : List Job),
      (∀ j ∈ store, job_inv j = true) →
      ∀ j ∈ (reset_jobs_daily today store), job_inv j = true) := by
  refine ⟨?_, ?_, ?_⟩
  · intro now job_id store hinv hsafe j hj
    cases hfind : store.find? (fun k => k.id == job_id) with
    | none =>
      have he : emp_start_job now store job_id = (.notFound, store) := by
        unfold emp_start_job; rw [hfind]
      rw [he] at hj
      exact hinv j hj
    | some j0 =>
      have he : emp_start_job now store job_id =
          if j0.status = .in_progress then (.alreadyInProgress, store)
          else (.started, start_update now job_id store) := by
        unfold emp_start_job; rw [hfind]
      rw [he] at hj
      by_cases hs : j0.status = .in_progress
      · rw [if_pos hs] at hj
        exact hinv j hj
      · rw [if_neg hs] at hj
        simp only [start_update, List.mem_map] at hj
        obtain ⟨k, hk, rfl⟩ := hj
        by_cases hid : (k.id == job_id) = true
        · rw [if_pos hid]
          have hkid : k.id = job_id := by simpa using hid
          have hknc := hsafe k hk hkid
          have hkinv := hinv k hk
          obtain ⟨kid, ksn, kst, kas, kstt, kft, kph, kno, ksd⟩ := k
          cases kst with
          | pending => cases kstt <;> cases kft <;> simp_all [job_inv]
          | in_progress => cases kstt <;> cases kft <;> simp_all [job_inv]
          | completed => exact absurd rfl hknc
        · rw [if_neg hid]
          exact hinv k hk
  · intro now job_id store hnodup hinv hts j hj
    cases hfind : store.find? (fun k => k.id == job_id) with
    | none =>
      have he : emp_finish_job now store job_id = (.notFound, store) := by
        unfold emp_finish_job; rw [hfind]
      rw [he] at hj
      exact hinv j hj
    | some j0 =>
      have he : emp_finish_job now store job_id =
          if j0.status = .completed then (.alreadyCompleted, store)
          else if j0.status ≠ .in_progress then (.notStarted, store)
          else (.finished, finish_update now job_id store) := by
        unfold emp_finish_job; rw [hfind]
      rw [he] at hj
      by_cases hc : j0.status = .completed
      · rw [if_pos hc] at hj
        exact hinv j hj
      · rw [if_neg hc] at hj
        by_cases hip : j0.status ≠ .in_progress
        · rw [if_pos hip] at hj
          exact hinv j hj
        · rw [if_neg hip] at hj
          push_neg at hip
          simp only [finish_update, List.mem_map] at hj
          obtain ⟨k, hk, rfl⟩ := hj
          by_cases hid : (k.id == job_id) = true
          · rw [if_pos hid]
            have hkid : k.id = job_id := by simpa using hid
            have hj0mem := List.mem_of_find?_eq_some hfind
            have hj0id : j0.id = job_id := by
              simpa using List.find?_some hfind
            have hkj0 : k = j0 :=
              List.inj_on_of_nodup_map hnodup hk hj0mem (by rw [hkid, hj0id])
            subst hkj0
            have hkinv := hinv k hk
            have hts0 := hts k hk hkid
            obtain ⟨kid, ksn, kst, kas, kstt, kft, kph, kno, ksd⟩ := k
            cases kst with
            | pending => simp at hip
            | completed => simp at hip
            | in_progress =>
              cases kstt with
              | none => simp [job_inv] at hkinv
              | some s =>
                cases kft with
                | some f => simp [job_inv] at hkinv
                | none => simpa [job_inv, Option.all] using hts0
          · rw [if_neg hid]
            exact hinv k hk
  · intro today store hinv j hj
    simp only [reset_jobs_daily, List.mem_map] at hj
    obtain ⟨k, hk, rfl⟩ := hj
    unfold reset_step
    by_cases hst : is_stale today k
    · rw [if_pos hst]
      rfl
    · rw [if_neg hst]
      exact hinv k hk

/-- C2 witness: the three preservation statements applied to singleton
stores holding the sample Pending, InProgress and Completed jobs. -/
theorem c2_invariant_preservation_witness :
    (∀ j ∈ (emp_start_job 7 [samplePendingJob] 1).2, job_inv j = true) ∧
    (∀ j ∈ (emp_finish_job 40 [sampleInProgressJob] 1).2, job_inv j = true) ∧
    (∀ j ∈ reset_jobs_daily "2025-03-01" [sampleCompletedJob],
      job_inv j = true) :=
  ⟨c2_invariant_preservation.1 7 1 [samplePendingJob] (by decide) (by decide),
   c2_invariant_preservation.2.1 40 1 [sampleInProgressJob] (by decide)
     (by decide) (by decide),
   c2_invariant_preservation.2.2 "2025-03-01" [sampleCompletedJob] (by decide)⟩

/-- C6: the daily reset resets (status → Pending, assignee and both
timestamps → null) exactly those jobs that are InProgress or Completed
with an unset scheduled date or one equal to the current local date
(`is_stale`), and leaves every other job unchanged. -/
theorem c6_reset_scope (today : String) (store : List Job) :
    (reset_jobs_daily today store).length = store.length ∧
    ∀ (i : Nat) (h : i < store.length)
      (h2 : i < (reset_jobs_daily today store).length),
      (is_stale today store[i] →
        (reset_jobs_daily today store)[i] =
          { store[i] with status := .pending, assigned_to := none,
                          start_time := none, finish_time := none }) ∧
      (¬is_stale today store[i] →
        (reset_jobs_daily today store)[i] = store[i]) := by
  refine ⟨by simp [reset_jobs_daily], ?_⟩
  intro i h h2
  constructor
  · intro hst
    simp only [reset_jobs_daily, List.getElem_map]
    unfold reset_step
    rw [if_pos hst]
  · intro hst
    simp only [reset_jobs_daily, List.getElem_map]
    unfold reset_step
    rw [if_neg hst]

/-- C6 witness: the sample Completed job (no scheduled date) is reset to a
Pending, unassigned job with cleared timestamps. -/
theorem c6_reset_scope_witness :
    is_stale "2025-03-01" sampleCompletedJob ∧
    (reset_jobs_daily "2025-03-01" [sampleCompletedJob]).get ⟨0, by decide⟩ =
      { sampleCompletedJob with status := .pending, assigned_to := none,
                                start_time := none, finish_time := none } := by
  refine ⟨by decide, ?_⟩
  have h := (c6_reset_scope "2025-03-01" [sampleCompletedJob]).2 0
    (by decide) (by decide)
  exact h.1 (by decide)

/-- C7: offset pagination with page size 10 in stable order visits each
unassigned job exactly once across consecutive pages (their concatenation
is the original list, and each job occurs once in it), the Next button is
offered exactly when the current page holds 10 jobs — equivalently when at
least `p * 10` unassigned jobs exist — and page navigation preserves the
selection set (going to page 2 and back to page 1 leaves it unchanged). -/
theorem c7_pagination (l : List Job) (k p : Nat) (s : Session)
    (hcover : l.length ≤ k * jobs_per_page) (hnodup : l.Nodup)
    (hp : 1 ≤ p) :
    pages_concat k l = l ∧
    (∀ j ∈ l, (pages_concat k l).count j = 1) ∧
    (page_has_next p l = true ↔
      (assign_jobs_page p l).length = jobs_per_page) ∧
    (page_has_next p l = true ↔ p * jobs_per_page ≤ l.length) ∧
    (handle_page_nav 1 (handle_page_nav 2 s)).selected_jobs =
      s.selected_jobs := by
  have hcov := pages_concat_covers k l hcover
  refine ⟨hcov, ?_, ?_, ?_, rfl⟩
  · intro j hj
    rw [hcov]
    exact List.count_eq_one_of_mem hnodup hj
  · unfold page_has_next
    exact beq_iff_eq
  · unfold page_has_next
    rw [beq_iff_eq]
    have hlen : (assign_jobs_page p l).length =
        min jobs_per_page (l.length - (p - 1) * jobs_per_page) := by
      simp [assign_jobs_page, List.length_take, List.length_drop]
    rw [hlen]
    simp only [jobs_per_page]
    omega

/-- C7 witness: the pagination facts at a two-job unassigned list with one
page. -/
theorem c7_pagination_witness :
    pages_concat 1 [samplePendingJob, sampleOtherJob] =
      [samplePendingJob, sampleOtherJob] ∧
    (page_has_next 1 [samplePendingJob, sampleOtherJob] = true ↔
      1 * jobs_per_page ≤ ([samplePendingJob, sampleOtherJob] : List Job).length) ∧
    (handle_page_nav 1 (handle_page_nav 2 emptySession)).selected_jobs =
      emptySession.selected_jobs := by
  have h := c7_pagination [samplePendingJob, sampleOtherJob] 1 1 emptySession
    (by decide) (by decide) (by decide)
  exact ⟨h.1, h.2.2.2.1, h.2.2.2.2⟩

/-- C10: bulk assignment with a non-empty selection sets `assigned_to` to
the chosen employee for exactly the jobs whose id is selected — whatever
their current assignee or status — and changes nothing else: the store
keeps its length and every row keeps all other fields; rows whose id is
not selected (in particular, selected ids matching no row) leave the store
unchanged at their position. -/
theorem c10_bulk_assign (employee_id : Int) (selected : List Nat)
    (store : List Job) (hne : selected ≠ []) :
    (assign_jobs_to_employee employee_id selected store).length =
      store.length ∧
    ∀ (i : Nat) (h : i < store.length)
      (h2 : i < (assign_jobs_to_employee employee_id selected store).length),
      (assign_jobs_to_employee employee_id selected store)[i] =
        if store[i].id ∈ selected
        then { store[i] with assigned_to := some employee_id }
        else store[i] := by
  have hfold : assign_jobs_to_employee employee_id selected store =
      selected.foldl (fun st jid => assign_update employee_id jid st) store := by
    unfold assign_jobs_to_employee
    rw [if_neg hne]
  constructor
  · rw [hfold]
    exact assign_fold_length employee_id selected store
  · intro i h h2
    rw [hfold] at h2
    simp only [hfold]
    exact assign_fold_getElem employee_id selected store i h h2

/-- C10 witness: assigning the selected id 1 to employee 5 over a store
holding the sample Completed job (already assigned to employee 7)
overwrites the assignee and changes nothing else. -/
theorem c10_bulk_assign_witness :
    (assign_jobs_to_employee 5 [1] [sampleCompletedJob]).length = 1 ∧
    (assign_jobs_to_employee 5 [1] [sampleCompletedJob]).get ⟨0, by decide⟩ =
      { sampleCompletedJob with assigned_to := some 5 } := by
  have h := c10_bulk_assign 5 [1] [sampleCompletedJob] (by decide)
  refine ⟨h.1, ?_⟩
  exact (h.2 0 (by decide) (by decide)).trans (by decide)

/-- C4: once 25 photos are stored for a job/day, a further upload of a
well-formed today-dated reference is rejected by `handle_photo_db` with the
quota condition; the stored column is returned unchanged, so the stored
photo count for that job/day stays 25 and the rejected reference is not
persisted; the `emp_upload_photo` gate likewise refuses to enter upload
mode.  The well-formedness hypotheses hold for everything the source
writes: stored columns are stripped pipe-joins, and the generated filename
`photos/job_<id>_<today>_<file_id>.jpg` contains today's date, no pipe and
no surrounding whitespace. -/
theorem c4_quota_enforced (photos_str today photo_path : String)
    (h25 : count_photos_for_date photos_str today = 25)
    (hclean : pyStrip photos_str.toList = photos_str.toList)
    (hdate : hasSub photo_path.toList today.toList = true)
    (hpipe : '|' ∉ photo_path.toList)
    (htrim : pyStrip photo_path.toList = photo_path.toList)
    (hnp : photo_path.toList ≠ []) :
    handle_photo_db photos_str today photo_path =
      (.quotaExceeded, photos_str) ∧
    count_photos_for_date (handle_photo_db photos_str today photo_path).2
      today = 25 ∧
    ∀ (job_id : Nat) (s : Session),
      emp_upload_photo photos_str today job_id s = s := by
  have hne_old : photos_str.toList ≠ [] := by
    intro h0
    unfold count_photos_for_date filter_photos_by_date photo_refs at h25
    rw [h0] at h25
    simp [pyStrip] at h25
  have hstrip_old : pyStrip photos_str.toList ≠ [] := by
    rw [hclean]
    exact hne_old
  have h25s : ((splitOnPipe photos_str.toList).filter
      (fun q => hasSub q today.toList)).length = 25 := by
    have hc := count_photos_eq photos_str today hstrip_old
    rw [hclean] at hc
    exact hc.symm.trans h25
  have happ : appended_photos photos_str photo_path =
      String.mk (pyStrip photos_str.toList) ++ "|" ++ photo_path := by
    unfold appended_photos
    rw [if_neg (by simpa [List.isEmpty_iff] using hstrip_old)]
  have happ_list : (appended_photos photos_str photo_path).toList =
      photos_str.toList ++ '|' :: photo_path.toList := by
    rw [happ, hclean]
    show (String.mk photos_str.toList ++ "|" ++ photo_path).data = _
    simp [String.data_append]
  have hstrip_app :
      pyStrip (appended_photos photos_str photo_path).toList =
        photos_str.toList ++ '|' :: photo_path.toList := by
    rw [happ_list]
    exact pyStrip_append_pipe hclean hne_old htrim hnp
  have hcount_app :
      count_photos_for_date (appended_photos photos_str photo_path) today
        = 26 := by
    have hne_app :
        pyStrip (appended_photos photos_str photo_path).toList ≠ [] := by
      rw [hstrip_app]
      simp
    rw [count_photos_eq _ _ hne_app, hstrip_app]
    rw [splitOnPipe_append, splitOnPipe_of_not_mem _ hpipe]
    rw [List.filter_append, List.length_append, h25s]
    have hdate2 : hasSub photo_path.data today.data = true := hdate
    simp [List.filter, hdate2]
  have hmain : handle_photo_db photos_str today photo_path =
      (.quotaExceeded, photos_str) := by
    unfold handle_photo_db
    rw [hcount_app]
    norm_num
  refine ⟨hmain, ?_, ?_⟩
  · rw [hmain]
    exact h25
  · intro job_id s
    unfold emp_upload_photo
    rw [if_pos (by rw [h25])]

/-- C4 witness: with twenty-five stored references for 2025-01-01, a
twenty-sixth upload dated 2025-01-01 is rejected and the column is
unchanged. -/
theorem c4_quota_enforced_witness :
    count_photos_for_date twentyFivePhotos "2025-01-01" = 25 ∧
    handle_photo_db twentyFivePhotos "2025-01-01" "z_2025-01-01" =
      (.quotaExceeded, twentyFivePhotos) :=
  ⟨by decide,
   (c4_quota_enforced twentyFivePhotos "2025-01-01" "z_2025-01-01" (by decide)
     (by decide) (by decide) (by decide) (by decide) (by decide)).1⟩

end MowBot
